import Mathlib

/-!
Verification of the node/protocol layer of `bigdot123456/blockchain`
(`src/nodes.py`), a peer-to-peer blockchain node.

The Python classes `Node`, `BlockchainNode` (full node) and `MinerNode` are
embedded shallowly: mutable node state becomes the record `NodeState`,
outbound network traffic becomes an explicit list of `Frame`s, and a Python
exception escaping an operation is recorded by the `err` flag of `Eff`.
Timestamps (`time.time()`) are passed in explicitly as an integer `now`
argument.  Per-operation we use a single `now` for every `time()` call the
operation makes; no claim depends on distinguishing sub-second instants.

The `Blockchain` class (`src/blockchain.py`) is imported by `nodes.py` but is
not part of the sources; its validator predicates and the genesis constant
are modelled from the specification (see the doc comments below).  The
digest function itself is a parameter `h : String → String`: the spec fixes
it to hex-encoded SHA-256, and none of the properties verified here depend
on which concrete digest is used.
-/

/-- Modelled from the spec: a transaction record (sender, recipient, amount,
previous_hash, timestamp); transactions are unsigned records. -/
structure Transaction where
  sender : String
  recipient : String
  amount : Int
  previous_hash : String
  timestamp : Int
deriving DecidableEq, Repr

/-- Modelled from the spec: a block header with index, previous_hash,
timestamp, merkle_root and proof. -/
structure Header where
  index : Nat
  previous_hash : String
  timestamp : Int
  merkle_root : String
  proof : Nat
deriving DecidableEq, Repr

/-- Modelled from the spec: a block is a header plus an ordered body of
transactions. -/
structure Block where
  header : Header
  body : List Transaction
deriving DecidableEq, Repr

/-- Modelled from the spec: the fixed genesis block (`index=0`,
`previous_hash="0"`, `proof=100`, fixed epoch timestamp, empty body with the
empty-body merkle sentinel).  `blockchain.py` is missing from the sources;
the spec's section 6 literal is used. -/
def genesis_block : Block :=
  { header := { index := 0, previous_hash := "0", timestamp := 0,
                merkle_root := "0", proof := 100 },
    body := [] }

/-- Modelled from the spec: canonical deterministic serialization of a
header (fixed field order, no whitespace variance), the input of the header
digest. -/
def serializeHeader (hd : Header) : String :=
  toString hd.index ++ "," ++ hd.previous_hash ++ "," ++ toString hd.timestamp
    ++ "," ++ hd.merkle_root ++ "," ++ toString hd.proof

/-- Modelled from the spec: `hash(header)` is the digest of the canonical
serialization of the header.  The digest `h` (hex SHA-256 in the spec) is a
parameter of the development. -/
def hashHeader (h : String → String) (hd : Header) : String :=
  h (serializeHeader hd)

/-- Modelled from the spec: `valid_proof(previous_hash, proof)` holds iff
the digest of `previous_hash` concatenated with the decimal text of `proof`
begins with the four characters `"0000"`. -/
def valid_proof (h : String → String) (previous_hash : String) (proof : Nat) : Bool :=
  (h (previous_hash ++ toString proof)).take 4 == "0000"

/-- Modelled from the spec: `valid_block(block, previous_block)` checks
index continuity, the previous-hash link, and the proof of work. -/
def valid_block (h : String → String) (block previous_block : Block) : Bool :=
  (block.header.index == previous_block.header.index + 1) &&
  (block.header.previous_hash == hashHeader h previous_block.header) &&
  valid_proof h block.header.previous_hash block.header.proof

/-- Modelled from the spec: chain validity from a given previous block:
every adjacent pair must satisfy `valid_block`. -/
def validFrom (h : String → String) (prev : Block) : List Block → Bool
  | [] => true
  | b :: rest => valid_block h b prev && validFrom h b rest

/-- Modelled from the spec: `valid_chain(chain)` — the chain is non-empty,
starts with the genesis block, and every adjacent pair satisfies
`valid_block`. -/
def valid_chain (h : String → String) : List Block → Bool
  | [] => false
  | b :: rest => (b == genesis_block) && validFrom h b rest

/-- Association-list lookup on string-keyed lists (the model of Python
dictionary indexing); returns the first binding of the key. -/
def lookupKey {α : Type} (k : String) : List (String × α) → Option α
  | [] => none
  | (k', v) :: rest => if k' = k then some v else lookupKey k rest

/-- Update the (first) binding of an existing key, the model of
`d[k]['field'] = v` on a Python dict whose keys are unique. -/
def updEntry {α : Type} (f : α → α) (k : String) : List (String × α) → List (String × α)
  | [] => []
  | (k', v) :: rest => if k' = k then (k', f v) :: rest else (k', v) :: updEntry f k rest

/-- Remove the binding of a key (`dict.pop` on a dict with unique keys). -/
def removeEntry {α : Type} (k : String) : List (String × α) → List (String × α)
  | [] => []
  | (k', v) :: rest => if k' = k then removeEntry k rest else (k', v) :: removeEntry k rest

/-- Remove an identifier from the peer set (`set.remove`). -/
def removeId (k : String) : List String → List String
  | [] => []
  | p :: rest => if p = k then removeId k rest else p :: removeId k rest

/-- Python dict merge `\x7b**a, **b\x7d`: `a`'s keys in order with `b`'s
values taking precedence, then `b`'s new keys. -/
def dict_merge (a b : List (String × String)) : List (String × String) :=
  a.map (fun kv => match lookupKey kv.1 b with
    | some v => (kv.1, v)
    | none => kv)
  ++ b.filter (fun kv => (lookupKey kv.1 a).isNone)

/-- The per-peer bookkeeping of `Node.peer_info`: identifier, last-receive
and last-send timestamps, and the claimed chain height (`None` when the
`version` payload carried no height). -/
structure PeerInfo where
  identifier : String
  lastrecv : Int
  lastsend : Int
  height : Option Int
deriving DecidableEq, Repr

/-- The mutable state of a node: its identifier, the ledger parts the
handlers touch (`chain`, `tx_info`), the peer set and table, and the
`ready`/`synced` flags. -/
structure NodeState where
  identifier : String
  chain : List Block
  tx_info : List (String × String)
  peers : List String
  peer_info : List (String × PeerInfo)
  ready : Bool
  synced : Bool
deriving DecidableEq, Repr

/-- Structured outbound payloads (the JSON texts `json.dumps` produces in
`nodes.py`). -/
inductive OutPayload where
  | empty
  | heightP (height : Int)
  | chainP (chain : List Block) (tx_info : List (String × String))
  | headersP (headers : List Header)
  | addblockP (block : Block) (tx_info : List (String × String)) (height : Int)
deriving DecidableEq, Repr

/-- An outbound wire envelope as built by `Node.send`. -/
structure Frame where
  type : String
  identifier : String
  message : OutPayload
  target : String
deriving DecidableEq, Repr

/-- The fields an inbound parsed payload may carry; absent JSON keys are
`none` (indexing an absent key raises, `.get` yields `None`). -/
structure MsgBody where
  height : Option Int := none
  chain : Option (List Block) := none
  tx_info : Option (List (String × String)) := none
  block : Option Block := none
deriving DecidableEq, Repr

/-- The inbound `message` field: the empty string (treated as `\x7b\x7d`),
an unparseable JSON text (`json.loads` raises), or a parsed object. -/
inductive PayloadIn where
  | empty
  | malformed
  | parsed (m : MsgBody)
deriving DecidableEq, Repr

/-- A decoded inbound envelope. -/
structure Envelope where
  type : String
  identifier : String
  message : PayloadIn
  target : String
deriving DecidableEq, Repr

/-- The effect of one operation: the state after it, the frames handed to
the transport, and whether a Python exception escaped the operation. -/
structure Eff where
  st : NodeState
  out : List Frame
  err : Bool
deriving DecidableEq, Repr

/-- Sequencing of effects: if the first raised, the rest is not run; frames
accumulate in order. -/
def seqEff (e : Eff) (k : NodeState → Eff) : Eff :=
  if e.err then e
  else
    let e2 := k e.st
    { st := e2.st, out := e.out ++ e2.out, err := e2.err }

/-- The frame `Node.send` serializes and hands to the transport. -/
def mkFrame (s : NodeState) (ty : String) (msg : OutPayload) (target : String) : Frame :=
  { type := ty, identifier := s.identifier, message := msg, target := target }

/-- The broadcast bookkeeping loop of `Node.send`: set `lastsend` of every
peer in the peer set; a peer missing from `peer_info` raises `KeyError`
(flag `true`), keeping the updates already made. -/
def touchSendAll (now : Int) (info : List (String × PeerInfo)) :
    List String → List (String × PeerInfo) × Bool
  | [] => (info, false)
  | p :: ps =>
    if (lookupKey p info).isSome then
      touchSendAll now (updEntry (fun pi => { pi with lastsend := now }) p info) ps
    else (info, true)

/-- `Node.send`: build the envelope, hand it to the transport, then update
`lastsend` — of the target if one is given (raising `KeyError` when the
target is not in `peer_info`), else of every registered peer. -/
def send (s : NodeState) (now : Int) (ty : String) (msg : OutPayload) (target : String) : Eff :=
  let fr := mkFrame s ty msg target
  if target ≠ "" then
    match lookupKey target s.peer_info with
    | some _ =>
      { st := { s with peer_info := updEntry (fun pi => { pi with lastsend := now }) target s.peer_info },
        out := [fr], err := false }
    | none => { st := s, out := [fr], err := true }
  else
    let r := touchSendAll now s.peer_info s.peers
    { st := { s with peer_info := r.1 }, out := [fr], err := r.2 }

/-- `Node.register_peer`: add the identifier if unknown (with
`lastrecv = now`, `lastsend = 0` and the claimed height) and report whether
a new peer was registered. -/
def register_peer (s : NodeState) (now : Int) (identifier : String) (height : Option Int) :
    NodeState × Bool :=
  if identifier ∈ s.peers then (s, false)
  else
    ({ s with
        peers := s.peers ++ [identifier],
        peer_info := s.peer_info ++
          [(identifier, { identifier := identifier, lastrecv := now, lastsend := 0,
                          height := height })] },
      true)

/-- The body of `Node.handle_data` once the payload text has been parsed
(empty text stands for the empty object). -/
def node_handle_core (s : NodeState) (now : Int) (env : Envelope) (message : MsgBody) : Eff :=
  let sender := env.identifier
  let step1 : Eff :=
    if env.type = "version" then
      let r := register_peer s now sender message.height
      if r.2 then
        seqEff (send r.1 now "verack" OutPayload.empty sender)
          (fun s2 => send s2 now "version" (OutPayload.heightP (s2.chain.length : Int)) sender)
      else { st := r.1, out := [], err := false }
    else if env.type = "verack" then
      { st := { s with ready := true }, out := [], err := false }
    else { st := s, out := [], err := false }
  seqEff step1 (fun s1 =>
    if s1.ready then
      if env.type = "heartbeat" then send s1 now "heartbeatack" OutPayload.empty sender
      else { st := s1, out := [], err := false }
    else { st := s1, out := [], err := false })

/-- `Node.handle_data`: parse the payload text (an unparseable text raises)
and run the version/verack/heartbeat dispatch. -/
def node_handle_data (s : NodeState) (now : Int) (env : Envelope) : Eff :=
  match env.message with
  | PayloadIn.malformed => { st := s, out := [], err := true }
  | PayloadIn.empty => node_handle_core s now env {}
  | PayloadIn.parsed m => node_handle_core s now env m

/-- The scan loop of `resolve_conflicts`: walk the peer set keeping the
greatest claimed height above the running maximum and the peer claiming it;
a peer whose stored height is `None` makes the comparison raise `TypeError`
(flag `true`). -/
def scan_peers (info : List (String × PeerInfo)) :
    List String → Int → Option String → (Int × Option String) × Bool
  | [], mh, mp => ((mh, mp), false)
  | p :: ps, mh, mp =>
    match lookupKey p info with
    | none => scan_peers info ps mh mp
    | some pi =>
      match pi.height with
      | none => ((mh, mp), true)
      | some hgt =>
        if mh < hgt then scan_peers info ps hgt (some p)
        else scan_peers info ps mh mp

/-- `BlockchainNode.resolve_conflicts`: find a peer claiming a height
strictly above the local chain length; if one was found (Python truthiness:
a non-empty identifier) send it `getdata`, otherwise set `synced`. -/
def resolve_conflicts (s : NodeState) (now : Int) : Eff :=
  match scan_peers s.peer_info s.peers (s.chain.length : Int) none with
  | (_, true) => { st := s, out := [], err := true }
  | ((_, some p), false) =>
    if p ≠ "" then send s now "getdata" OutPayload.empty p
    else { st := { s with synced := true }, out := [], err := false }
  | ((_, none), false) => { st := { s with synced := true }, out := [], err := false }

/-- The guarded peer-table update `if sender in self.peers:
self.peer_info[sender][field] = value` used by the handlers and by `recv`:
no-op when the sender is not in the peer set; when the sender is in the
peer set but missing from `peer_info`, the dict indexing raises `KeyError`
(`none`). -/
def upd_sender_info (f : PeerInfo → PeerInfo) (sender : String) (s : NodeState) :
    Option NodeState :=
  if sender ∈ s.peers then
    match lookupKey sender s.peer_info with
    | some _ => some { s with peer_info := updEntry f sender s.peer_info }
    | none => none
  else some s

/-- The full-node part of `BlockchainNode.handle_data` (after the `Node`
dispatch ran): serve `getdata`/`getheaders`, accept `chain` and `addblock`.
Indexing an absent payload key raises `KeyError` (flag `true`), as does the
peer-height update when the sender is in the peer set but missing from
`peer_info` — in both cases before the chain is touched. -/
def bc_handle_core (h : String → String) (s : NodeState) (now : Int) (env : Envelope)
    (message : MsgBody) : Eff :=
  let sender := env.identifier
  if env.type = "getdata" then
    send s now "chain" (OutPayload.chainP s.chain s.tx_info) sender
  else if env.type = "getheaders" then
    send s now "headers" (OutPayload.headersP (s.chain.map (fun b => b.header))) sender
  else if env.type = "chain" then
    match message.chain, message.tx_info with
    | some chain, some tx_info =>
      match upd_sender_info (fun pi => { pi with height := some (chain.length : Int) }) sender s with
      | none => { st := s, out := [], err := true }
      | some s1 =>
        if valid_chain h chain then
          { st := { s1 with chain := chain, tx_info := dict_merge s1.tx_info tx_info, synced := true },
            out := [], err := false }
        else resolve_conflicts s1 now
    | _, _ => { st := s, out := [], err := true }
  else if env.type = "addblock" then
    match message.block, message.height, message.tx_info with
    | some new_block, some height, some tx_info =>
      match upd_sender_info (fun pi => { pi with height := some height }) sender s with
      | none => { st := s, out := [], err := true }
      | some s1 =>
        let chain := s1.chain ++ [new_block]
        if valid_chain h chain then
          { st := { s1 with chain := chain, tx_info := dict_merge s1.tx_info tx_info },
            out := [], err := false }
        else resolve_conflicts s1 now
    | _, _, _ => { st := s, out := [], err := true }
  else { st := s, out := [], err := false }

/-- `BlockchainNode.handle_data`: run the `Node` dispatch, then the
full-node dispatch (re-parsing the payload as the Python override does). -/
def bc_handle_data (h : String → String) (s : NodeState) (now : Int) (env : Envelope) : Eff :=
  seqEff (node_handle_data s now env) (fun s1 =>
    match env.message with
    | PayloadIn.malformed => { st := s1, out := [], err := true }
    | PayloadIn.empty => bc_handle_core h s1 now env {}
    | PayloadIn.parsed m => bc_handle_core h s1 now env m)

/-- `Node.recv`: decode the frame (`none` models an unparseable frame, whose
decode raises), drop frames addressed to another node, dispatch to the
role's handler, then touch the sender's `lastrecv` if the sender is a known
peer (raising `KeyError` if the sender is in the peer set but missing from
`peer_info`).  The handler argument models the dynamic dispatch to the
role's `handle_data` override. -/
def recv (handler : NodeState → Int → Envelope → Eff) (s : NodeState) (now : Int)
    (packet : Option Envelope) : Eff :=
  match packet with
  | none => { st := s, out := [], err := true }
  | some env =>
    if env.target.length ≠ 0 ∧ env.target ≠ s.identifier then
      { st := s, out := [], err := false }
    else
      let e := handler s now env
      if e.err then e
      else
        match upd_sender_info (fun pi => { pi with lastrecv := now }) env.identifier e.st with
        | none => { st := e.st, out := e.out, err := true }
        | some s2 => { st := s2, out := e.out, err := false }

/-- The removal loop of the idle sweep in `Node.run`: pop each collected
identifier from `peer_info` and remove it from `peers`; a missing key
raises `KeyError` (flag `true`), keeping the removals already made. -/
def removeAll (s : NodeState) : List String → NodeState × Bool
  | [] => (s, false)
  | p :: ps =>
    if (lookupKey p s.peer_info).isSome then
      let s1 := { s with peer_info := removeEntry p s.peer_info }
      if p ∈ s1.peers then removeAll { s1 with peers := removeId p s1.peers } ps
      else (s1, true)
    else (s, true)

/-- The idle sweep at the top of `Node.run`'s loop: collect the peers with
`lastsend - lastrecv > 60*30` and remove them. -/
def idle_sweep (s : NodeState) : NodeState × Bool :=
  removeAll s
    ((s.peer_info.filter (fun kv => decide (60 * 30 < kv.2.lastsend - kv.2.lastrecv))).map Prod.fst)

/-- `MinerNode.proof_of_work`: the loop `proof := 0; until
valid_proof(prev_hash, proof) do proof := proof + 1` returns, when some
proof exists, the least satisfying proof; its denotation is `Nat.find`. -/
def proof_of_work (h : String → String) (prev_hash : String)
    (hex : ∃ p, valid_proof h prev_hash p = true) : Nat :=
  Nat.find hex

/-- The claimed height recorded for a peer, when present. -/
def heightOf (s : NodeState) (p : String) : Option Int :=
  (lookupKey p s.peer_info).bind (fun pi => pi.height)

/-! Concrete fixtures used by the witnesses and counterexamples below. -/

/-- A digest function for fixtures whose properties never reach the digest. -/
def hCx : String → String := fun _ => ""

/-- A digest function under which proof `0` already wins, used to exhibit a
terminating proof-of-work search. -/
def h00 : String → String := fun _ => "0000"

/-- An arbitrary non-genesis block. -/
def junkB : Block :=
  { header := { index := 5, previous_hash := "x", timestamp := 1,
                merkle_root := "m", proof := 7 },
    body := [] }

/-- Fixture for C1: one peer claiming height 5 over an empty local chain. -/
def stC1 : NodeState :=
  { identifier := "9:me", chain := [], tx_info := [],
    peers := ["1:a"],
    peer_info := [("1:a", { identifier := "1:a", lastrecv := 0, lastsend := 0, height := some 5 })],
    ready := true, synced := false }

/-- Fixture for C2: a node holding a two-block chain. -/
def stC2 : NodeState :=
  { identifier := "9:me", chain := [genesis_block, junkB], tx_info := [],
    peers := [], peer_info := [], ready := false, synced := false }

/-- Fixture for C2: a `chain` message carrying the one-block genesis chain. -/
def envC2 : Envelope :=
  { type := "chain", identifier := "1:peer",
    message := PayloadIn.parsed { chain := some [genesis_block], tx_info := some [] },
    target := "" }

/-- Fixture for C3: a node that has already registered peer `2:p`. -/
def stC3 : NodeState :=
  { identifier := "9:me", chain := [], tx_info := [],
    peers := ["2:p"],
    peer_info := [("2:p", { identifier := "2:p", lastrecv := 0, lastsend := 0, height := some 1 })],
    ready := true, synced := false }

/-- Fixture for C3: a second `version` message from the registered peer. -/
def envC3 : Envelope :=
  { type := "version", identifier := "2:p",
    message := PayloadIn.parsed { height := some 3 },
    target := "" }

/-- Fixture for C4: peers idle for exactly 1800 s, for 1801 s, and one never
sent to. -/
def stC4 : NodeState :=
  { identifier := "9:me", chain := [], tx_info := [],
    peers := ["1:a", "2:b", "3:c"],
    peer_info :=
      [("1:a", { identifier := "1:a", lastrecv := 0, lastsend := 1800, height := some 0 }),
       ("2:b", { identifier := "2:b", lastrecv := 0, lastsend := 1801, height := some 0 }),
       ("3:c", { identifier := "3:c", lastrecv := 5, lastsend := 0, height := some 0 })],
    ready := true, synced := true }

/-- Fixture for C5: a node with an empty chain (the default `Blockchain()`
starts empty). -/
def stC5 : NodeState :=
  { identifier := "9:me", chain := [], tx_info := [],
    peers := [], peer_info := [], ready := false, synced := false }

/-- Fixture for C5: an `addblock` message carrying the genesis block. -/
def envC5 : Envelope :=
  { type := "addblock", identifier := "1:peer",
    message := PayloadIn.parsed { block := some genesis_block, height := some 1, tx_info := some [] },
    target := "" }

/-- Fixture for C6: an arbitrary node state receiving garbage bytes. -/
def stC6 : NodeState :=
  { identifier := "1:a", chain := [genesis_block], tx_info := [("t", "v")],
    peers := ["2:p"],
    peer_info := [("2:p", { identifier := "2:p", lastrecv := 0, lastsend := 0, height := some 1 })],
    ready := true, synced := true }

/-- Fixture for C6: an envelope whose payload text is unparseable JSON. -/
def envC6 : Envelope :=
  { type := "version", identifier := "2:p", message := PayloadIn.malformed, target := "" }

/-- Fixture for C7: a node about to receive a misaddressed message. -/
def stC7 : NodeState :=
  { identifier := "1:me", chain := [genesis_block], tx_info := [],
    peers := ["2:p"],
    peer_info := [("2:p", { identifier := "2:p", lastrecv := 0, lastsend := 0, height := some 1 })],
    ready := true, synced := false }

/-- Fixture for C7: a message targeted at a different node. -/
def envC7 : Envelope :=
  { type := "version", identifier := "2:p",
    message := PayloadIn.parsed { height := some 4 }, target := "3:other" }

/-- Fixture for C9: a node that is not yet `ready`. -/
def stC9 : NodeState :=
  { identifier := "9:me", chain := [], tx_info := [],
    peers := ["2:p"],
    peer_info := [("2:p", { identifier := "2:p", lastrecv := 0, lastsend := 0, height := some 1 })],
    ready := false, synced := false }

/-- Fixture for C9: a node that is `ready`. -/
def stC9r : NodeState :=
  { identifier := "9:me", chain := [], tx_info := [],
    peers := ["2:p"],
    peer_info := [("2:p", { identifier := "2:p", lastrecv := 0, lastsend := 0, height := some 1 })],
    ready := true, synced := false }

/-- Fixture for C9: a broadcast heartbeat from peer `2:p`. -/
def envC9 : Envelope :=
  { type := "heartbeat", identifier := "2:p", message := PayloadIn.empty, target := "" }

/-- Fixture for C10: a node whose peer table does not know target `9:zz`. -/
def stC10a : NodeState :=
  { identifier := "1:me", chain := [], tx_info := [],
    peers := ["2:p"],
    peer_info := [("2:p", { identifier := "2:p", lastrecv := 0, lastsend := 0, height := some 1 })],
    ready := true, synced := false }

/-- Fixture for C10: a node with two registered peers, for a broadcast. -/
def stC10b : NodeState :=
  { identifier := "1:me", chain := [], tx_info := [],
    peers := ["2:p", "3:q"],
    peer_info :=
      [("2:p", { identifier := "2:p", lastrecv := 0, lastsend := 0, height := some 1 }),
       ("3:q", { identifier := "3:q", lastrecv := 2, lastsend := 3, height := some 2 })],
    ready := true, synced := false }

/-! Helper lemmas about the association-list operations and `send`. -/

theorem string_empty_of_length_zero {s : String} (h : s.length = 0) : s = "" := by
  cases s with
  | mk data =>
    have hd : data = [] := List.length_eq_zero.mp h
    simp [hd]

theorem lookupKey_updEntry {α : Type} (f : α → α) (k k' : String) (l : List (String × α)) :
    lookupKey k' (updEntry f k l) =
      if k' = k then (lookupKey k l).map f else lookupKey k' l := by
  induction l with
  | nil => simp [lookupKey, updEntry]
  | cons kv rest ih =>
    obtain ⟨k0, v⟩ := kv
    by_cases h0 : k0 = k
    · subst h0
      by_cases h1 : k0 = k'
      · subst h1
        simp [lookupKey, updEntry]
      · simp [lookupKey, updEntry, h1, Ne.symm h1]
    · by_cases h1 : k0 = k'
      · subst h1
        simp [lookupKey, updEntry, h0, Ne.symm h0]
      · simp [lookupKey, updEntry, h0, h1, ih]

theorem send_out (s : NodeState) (now : Int) (ty : String) (msg : OutPayload) (tgt : String) :
    (send s now ty msg tgt).out = [mkFrame s ty msg tgt] := by
  unfold send
  by_cases h : tgt = ""
  · simp [h]
  · simp only [h]
    cases lookupKey tgt s.peer_info <;> simp [h]

theorem send_st_chain (s : NodeState) (now : Int) (ty : String) (msg : OutPayload) (tgt : String) :
    (send s now ty msg tgt).st.chain = s.chain := by
  unfold send
  by_cases h : tgt = ""
  · simp [h]
  · simp only [h]
    cases lookupKey tgt s.peer_info <;> simp [h]

theorem send_st_synced (s : NodeState) (now : Int) (ty : String) (msg : OutPayload) (tgt : String) :
    (send s now ty msg tgt).st.synced = s.synced := by
  unfold send
  by_cases h : tgt = ""
  · simp [h]
  · simp only [h]
    cases lookupKey tgt s.peer_info <;> simp [h]

theorem send_st_peers (s : NodeState) (now : Int) (ty : String) (msg : OutPayload) (tgt : String) :
    (send s now ty msg tgt).st.peers = s.peers := by
  unfold send
  by_cases h : tgt = ""
  · simp [h]
  · simp only [h]
    cases lookupKey tgt s.peer_info <;> simp [h]

theorem resolve_conflicts_chain (s : NodeState) (now : Int) :
    (resolve_conflicts s now).st.chain = s.chain := by
  unfold resolve_conflicts
  rcases hscan : scan_peers s.peer_info s.peers (s.chain.length : Int) none with ⟨⟨mh, mp⟩, e⟩
  cases e
  · cases mp with
    | none => simp
    | some p =>
      by_cases hp : p = ""
      · simp [hp]
      · simp only [hp]
        simp [hp, send_st_chain]
  · simp

theorem upd_sender_info_chain (f : PeerInfo → PeerInfo) (sender : String) (s s1 : NodeState)
    (hupd : upd_sender_info f sender s = some s1) : s1.chain = s.chain := by
  unfold upd_sender_info at hupd
  by_cases hp : sender ∈ s.peers
  · rw [if_pos hp] at hupd
    rcases hl : lookupKey sender s.peer_info with _ | pi
    · rw [hl] at hupd
      exact Option.noConfusion hupd
    · rw [hl] at hupd
      injection hupd with h'
      rw [← h']
  · rw [if_neg hp] at hupd
    injection hupd with h'
    rw [← h']

theorem upd_sender_info_peers (f : PeerInfo → PeerInfo) (sender : String) (s s1 : NodeState)
    (hupd : upd_sender_info f sender s = some s1) : s1.peers = s.peers := by
  unfold upd_sender_info at hupd
  by_cases hp : sender ∈ s.peers
  · rw [if_pos hp] at hupd
    rcases hl : lookupKey sender s.peer_info with _ | pi
    · rw [hl] at hupd
      exact Option.noConfusion hupd
    · rw [hl] at hupd
      injection hupd with h'
      rw [← h']
  · rw [if_neg hp] at hupd
    injection hupd with h'
    rw [← h']

theorem updEntry_lookup_isSome {α : Type} (f : α → α) (k k' : String) (l : List (String × α))
    (hk : (lookupKey k' l).isSome) : (lookupKey k' (updEntry f k l)).isSome := by
  rw [lookupKey_updEntry]
  by_cases h : k' = k
  · subst h
    rw [if_pos rfl]
    simpa using hk
  · rw [if_neg h]
    exact hk

theorem upd_sender_info_lookup_isSome (f : PeerInfo → PeerInfo) (sender : String)
    (s s1 : NodeState) (k : String) (hupd : upd_sender_info f sender s = some s1)
    (hk : (lookupKey k s.peer_info).isSome) : (lookupKey k s1.peer_info).isSome := by
  unfold upd_sender_info at hupd
  by_cases hp : sender ∈ s.peers
  · rw [if_pos hp] at hupd
    rcases hl : lookupKey sender s.peer_info with _ | pi
    · rw [hl] at hupd
      exact Option.noConfusion hupd
    · rw [hl] at hupd
      injection hupd with h'
      rw [← h']
      exact updEntry_lookup_isSome f sender k s.peer_info hk
  · rw [if_neg hp] at hupd
    injection hupd with h'
    rw [← h']
    exact hk

theorem upd_sender_info_of_sync (f : PeerInfo → PeerInfo) (sender : String) (s : NodeState)
    (hsync : sender ∈ s.peers → (lookupKey sender s.peer_info).isSome) :
    ∃ s1, upd_sender_info f sender s = some s1 := by
  unfold upd_sender_info
  by_cases hp : sender ∈ s.peers
  · rcases hl : lookupKey sender s.peer_info with _ | pi
    · have := hsync hp
      rw [hl] at this
      exact absurd this (by simp)
    · rw [if_pos hp]
      exact ⟨_, rfl⟩
  · rw [if_neg hp]
    exact ⟨s, rfl⟩

theorem touchSendAll_lookup_isSome (now : Int) (ps : List String) :
    ∀ (info : List (String × PeerInfo)) (k : String),
      (lookupKey k info).isSome → (lookupKey k (touchSendAll now info ps).1).isSome := by
  induction ps with
  | nil =>
    intro info k hk
    exact hk
  | cons p ps ih =>
    intro info k hk
    by_cases hp : (lookupKey p info).isSome
    · have hstep : touchSendAll now info (p :: ps) =
          touchSendAll now (updEntry (fun pi => { pi with lastsend := now }) p info) ps := by
        simp only [touchSendAll, hp, if_true]
      rw [hstep]
      exact ih _ k (updEntry_lookup_isSome _ p k info hk)
    · have hstep : touchSendAll now info (p :: ps) = (info, true) := by
        simp [touchSendAll, hp]
      rw [hstep]
      exact hk

theorem send_lookup_isSome (s : NodeState) (now : Int) (ty : String) (msg : OutPayload)
    (tgt k : String) (hk : (lookupKey k s.peer_info).isSome) :
    (lookupKey k (send s now ty msg tgt).st.peer_info).isSome := by
  unfold send
  by_cases h : tgt = ""
  · simp only [h, ne_eq, not_true_eq_false, if_false, reduceIte]
    exact touchSendAll_lookup_isSome now s.peers s.peer_info k hk
  · simp only [h]
    rcases hl : lookupKey tgt s.peer_info with _ | pi
    · simp [h, hl]
      exact hk
    · simp [h, hl]
      exact updEntry_lookup_isSome _ tgt k s.peer_info hk

theorem resolve_conflicts_peers (s : NodeState) (now : Int) :
    (resolve_conflicts s now).st.peers = s.peers := by
  unfold resolve_conflicts
  rcases hscan : scan_peers s.peer_info s.peers (s.chain.length : Int) none with ⟨⟨mh, mp⟩, e⟩
  cases e
  · cases mp with
    | none => simp
    | some p =>
      by_cases hp : p = ""
      · simp [hp]
      · simp only [hp]
        simp [hp, send_st_peers]
  · simp

theorem resolve_conflicts_lookup_isSome (s : NodeState) (now : Int) (k : String)
    (hk : (lookupKey k s.peer_info).isSome) :
    (lookupKey k (resolve_conflicts s now).st.peer_info).isSome := by
  unfold resolve_conflicts
  rcases hscan : scan_peers s.peer_info s.peers (s.chain.length : Int) none with ⟨⟨mh, mp⟩, e⟩
  cases e
  · cases mp with
    | none => simpa using hk
    | some p =>
      by_cases hp : p = ""
      · simpa [hp] using hk
      · simp only [hp]
        simpa [hp] using send_lookup_isSome s now "getdata" OutPayload.empty p k hk
  · simpa using hk

/-! Lemmas about the `Node.handle_data` dispatch. -/

theorem node_handle_core_other (s : NodeState) (now : Int) (env : Envelope) (m : MsgBody)
    (h1 : env.type ≠ "version") (h2 : env.type ≠ "verack") (h3 : env.type ≠ "heartbeat") :
    node_handle_core s now env m = { st := s, out := [], err := false } := by
  unfold node_handle_core seqEff
  simp [h1, h2, h3]

theorem node_handle_data_other (s : NodeState) (now : Int) (env : Envelope)
    (h1 : env.type ≠ "version") (h2 : env.type ≠ "verack") (h3 : env.type ≠ "heartbeat")
    (hm : env.message ≠ PayloadIn.malformed) :
    node_handle_data s now env = { st := s, out := [], err := false } := by
  unfold node_handle_data
  cases hmsg : env.message with
  | malformed => exact absurd hmsg hm
  | empty => exact node_handle_core_other s now env {} h1 h2 h3
  | parsed m => exact node_handle_core_other s now env m h1 h2 h3

theorem node_handle_core_heartbeat (s : NodeState) (now : Int) (env : Envelope) (m : MsgBody)
    (hty : env.type = "heartbeat") :
    node_handle_core s now env m =
      if s.ready then send s now "heartbeatack" OutPayload.empty env.identifier
      else { st := s, out := [], err := false } := by
  have hv : env.type ≠ "version" := by rw [hty]; decide
  have hk : env.type ≠ "verack" := by rw [hty]; decide
  unfold node_handle_core seqEff
  by_cases hr : s.ready
  · simp [hv, hk, hty, hr]
  · simp [hv, hk, hty, hr]

/-- Claim C6 (counterexample): at a concrete node state, an inbound frame
whose content is not parseable JSON makes `recv` raise to its caller
(`err = true`), contradicting the claim that such frames are dropped
without raising and that the receive loop survives data errors (the loop in
`Node.run` catches only the empty-queue exception). -/
theorem recv_malformed_counterexample :
    (recv node_handle_data stC6 0 none).err = true := rfl

/-- Claim C6 (amended): an unparseable envelope, or an unparseable payload
in a frame addressed to this node, makes `recv` raise to its caller while
leaving the node state unchanged and sending nothing; since `Node.run`
catches only the empty-queue exception, such a data error escapes the
receive loop instead of being dropped silently. -/
theorem recv_data_error (handler : NodeState → Int → Envelope → Eff) (s : NodeState) (now : Int) :
    recv handler s now none = { st := s, out := [], err := true } ∧
    (∀ env : Envelope, env.message = PayloadIn.malformed →
      (env.target = "" ∨ env.target = s.identifier) →
      recv node_handle_data s now (some env) = { st := s, out := [], err := true }) := by
  constructor
  · rfl
  · intro env hm ht
    have hdata : node_handle_data s now env = { st := s, out := [], err := true } := by
      unfold node_handle_data
      rw [hm]
    have hcond : ¬(env.target.length ≠ 0 ∧ env.target ≠ s.identifier) := by
      rcases ht with h | h
      · intro hc
        exact hc.1 (by rw [h]; rfl)
      · intro hc
        exact hc.2 h
    unfold recv
    simp [hcond, hdata]

/-- Claim C6 witness: the amended statement at a concrete state, for both an
unparseable envelope and an unparseable payload. -/
theorem recv_data_error_witness :
    recv node_handle_data stC6 1 none = { st := stC6, out := [], err := true } ∧
    recv node_handle_data stC6 1 (some envC6) = { st := stC6, out := [], err := true } :=
  ⟨(recv_data_error node_handle_data stC6 1).1,
   (recv_data_error node_handle_data stC6 1).2 envC6 rfl (Or.inl rfl)⟩

/-- Claim C7: a decoded message whose `target` is non-empty and differs from
the receiving node's identifier is dropped by `recv` before any handler
runs: the state (peer table, chain, flags, timestamps) is unchanged, nothing
is sent, and no exception is raised.  Holds for every role's handler. -/
theorem recv_target_filter (handler : NodeState → Int → Envelope → Eff) (s : NodeState)
    (now : Int) (env : Envelope) (h1 : env.target ≠ "") (h2 : env.target ≠ s.identifier) :
    recv handler s now (some env) = { st := s, out := [], err := false } := by
  have hlen : env.target.length ≠ 0 := by
    intro h0
    exact h1 (string_empty_of_length_zero h0)
  unfold recv
  simp [hlen, h2]

/-- Claim C7 witness: the target filter at a concrete misaddressed
message. -/
theorem recv_target_filter_witness :
    recv node_handle_data stC7 4 (some envC7) = { st := stC7, out := [], err := false } :=
  recv_target_filter node_handle_data stC7 4 envC7 (by decide) (by decide)

/-- Claim C9 (counterexample): a node that is not `ready` (handshake not
completed) replies nothing to a broadcast heartbeat — the heartbeat branch
of `Node.handle_data` sits under `if self.ready` — contradicting the claim
that every node replies `heartbeatack`. -/
theorem heartbeat_counterexample :
    (recv node_handle_data stC9 0 (some envC9)).out = [] := rfl

/-- Claim C9 (amended): a node whose `ready` flag is set replies to a
heartbeat with a `heartbeatack` frame targeted at the heartbeat's sender; a
node that is not `ready` sends nothing in response to a heartbeat. -/
theorem heartbeat_reply (s : NodeState) (now : Int) (env : Envelope)
    (hty : env.type = "heartbeat") (hm : env.message ≠ PayloadIn.malformed) :
    (s.ready = true →
      (node_handle_data s now env).out =
        [mkFrame s "heartbeatack" OutPayload.empty env.identifier]) ∧
    (s.ready = false → (node_handle_data s now env).out = []) := by
  have hcore : ∀ m : MsgBody,
      node_handle_core s now env m =
        if s.ready then send s now "heartbeatack" OutPayload.empty env.identifier
        else { st := s, out := [], err := false } := fun m =>
    node_handle_core_heartbeat s now env m hty
  have hdata : node_handle_data s now env =
      if s.ready then send s now "heartbeatack" OutPayload.empty env.identifier
      else { st := s, out := [], err := false } := by
    unfold node_handle_data
    cases hmsg : env.message with
    | malformed => exact absurd hmsg hm
    | empty => exact hcore {}
    | parsed m => exact hcore m
  constructor
  · intro hr
    rw [hdata, if_pos (by rw [hr] : s.ready = true), send_out]
  · intro hr
    rw [hdata, if_neg (by rw [hr]; exact Bool.false_ne_true : ¬s.ready = true)]

/-- Claim C9 witness: the amended statement at concrete states, one `ready`
(a `heartbeatack` targeted at the sender goes out) and one not (nothing
goes out). -/
theorem heartbeat_reply_witness :
    (node_handle_data stC9r 2 envC9).out =
      [mkFrame stC9r "heartbeatack" OutPayload.empty envC9.identifier] ∧
    (node_handle_data stC9 2 envC9).out = [] :=
  ⟨(heartbeat_reply stC9r 2 envC9 rfl (by decide)).1 rfl,
   (heartbeat_reply stC9 2 envC9 rfl (by decide)).2 rfl⟩

/-! Lemmas for the broadcast bookkeeping loop of `Node.send`. -/

theorem touchSendAll_spec (now : Int) (ps : List String) :
    ∀ info : List (String × PeerInfo),
      (∀ p ∈ ps, (lookupKey p info).isSome) →
      (touchSendAll now info ps).2 = false ∧
      (∀ k, k ∉ ps → lookupKey k (touchSendAll now info ps).1 = lookupKey k info) ∧
      (∀ k, k ∈ ps → lookupKey k (touchSendAll now info ps).1 =
        (lookupKey k info).map (fun pi => { pi with lastsend := now })) := by
  induction ps with
  | nil =>
    intro info _
    refine ⟨rfl, fun k _ => rfl, fun k hk => absurd hk (List.not_mem_nil k)⟩
  | cons p ps ih =>
    intro info hall
    have hp : (lookupKey p info).isSome := hall p (List.mem_cons_self p ps)
    have hall' : ∀ q ∈ ps, (lookupKey q
        (updEntry (fun pi => { pi with lastsend := now }) p info)).isSome := by
      intro q hq
      rw [lookupKey_updEntry]
      by_cases hqp : q = p
      · subst hqp
        simpa [Option.isSome_map] using hp
      · rw [if_neg hqp]
        exact hall q (List.mem_cons_of_mem p hq)
    obtain ⟨he, hout, hin⟩ := ih (updEntry (fun pi => { pi with lastsend := now }) p info) hall'
    have hstep : touchSendAll now info (p :: ps) =
        touchSendAll now (updEntry (fun pi => { pi with lastsend := now }) p info) ps := by
      simp only [touchSendAll, hp, if_true]
    refine ⟨by rw [hstep]; exact he, ?_, ?_⟩
    · intro k hk
      have hkp : k ≠ p := fun h => hk (h ▸ List.mem_cons_self p ps)
      have hkps : k ∉ ps := fun h => hk (List.mem_cons_of_mem p h)
      rw [hstep, hout k hkps, lookupKey_updEntry, if_neg hkp]
    · intro k hk
      rcases List.mem_cons.mp hk with hkp | hkps
      · subst hkp
        by_cases hkin : k ∈ ps
        · rw [hstep, hin k hkin, lookupKey_updEntry, if_pos rfl, Option.map_map]
          rfl
        · rw [hstep, hout k hkin, lookupKey_updEntry, if_pos rfl]
      · by_cases hkp : k = p
        · subst hkp
          rw [hstep, hin k hkps, lookupKey_updEntry, if_pos rfl, Option.map_map]
          rfl
        · rw [hstep, hin k hkps, lookupKey_updEntry, if_neg hkp]

/-- Claim C10: `Node.send` always hands the serialized frame to the
transport first; a targeted send whose target is missing from `peer_info`
then raises `KeyError` with the state unchanged (the frame is already out),
while a broadcast (empty target) to peers all present in `peer_info`
succeeds and stamps `lastsend = now` on every registered peer. -/
theorem send_spec (s : NodeState) (now : Int) (ty : String) (msg : OutPayload) (target : String) :
    (send s now ty msg target).out = [mkFrame s ty msg target] ∧
    (target ≠ "" → lookupKey target s.peer_info = none →
      (send s now ty msg target).err = true ∧ (send s now ty msg target).st = s) ∧
    (target = "" → (∀ p ∈ s.peers, (lookupKey p s.peer_info).isSome) →
      (send s now ty msg target).err = false ∧
      (∀ p ∈ s.peers, lookupKey p (send s now ty msg target).st.peer_info =
        (lookupKey p s.peer_info).map (fun pi => { pi with lastsend := now }))) := by
  refine ⟨send_out s now ty msg target, ?_, ?_⟩
  · intro hne hnone
    unfold send
    simp [hne, hnone]
  · intro htgt hall
    obtain ⟨he, _, hin⟩ := touchSendAll_spec now s.peers s.peer_info hall
    subst htgt
    unfold send
    simp only [ne_eq, not_true_eq_false, if_false, reduceIte]
    exact ⟨he, fun p hp => hin p hp⟩

/-- Claim C10 witness: a targeted send to the unregistered `9:zz` raises
after emitting the frame; a broadcast stamps both registered peers. -/
theorem send_spec_witness :
    (send stC10a 7 "getdata" OutPayload.empty "9:zz").out =
      [mkFrame stC10a "getdata" OutPayload.empty "9:zz"] ∧
    (send stC10a 7 "getdata" OutPayload.empty "9:zz").err = true ∧
    (send stC10a 7 "getdata" OutPayload.empty "9:zz").st = stC10a ∧
    (send stC10b 7 "heartbeat" OutPayload.empty "").err = false ∧
    lookupKey "2:p" (send stC10b 7 "heartbeat" OutPayload.empty "").st.peer_info =
      (lookupKey "2:p" stC10b.peer_info).map (fun pi => { pi with lastsend := 7 }) ∧
    lookupKey "3:q" (send stC10b 7 "heartbeat" OutPayload.empty "").st.peer_info =
      (lookupKey "3:q" stC10b.peer_info).map (fun pi => { pi with lastsend := 7 }) := by
  obtain ⟨ha1, ha2, -⟩ := send_spec stC10a 7 "getdata" OutPayload.empty "9:zz"
  obtain ⟨-, -, hb⟩ := send_spec stC10b 7 "heartbeat" OutPayload.empty ""
  obtain ⟨hb1, hb2⟩ := hb rfl (by decide)
  obtain ⟨he, hst⟩ := ha2 (by decide) (by decide)
  exact ⟨ha1, he, hst, hb1, hb2 "2:p" (by decide), hb2 "3:q" (by decide)⟩

/-- Claim C3 (counterexample): at a concrete state where peer `2:p` is
already registered, a second `version` from `2:p` leaves the peer table
unchanged but sends nothing at all — no `verack` goes out, contradicting
the claim that a `verack` is still sent (the code replies only when
`register_peer` reports a new registration). -/
theorem version_reregister_counterexample :
    (node_handle_data stC3 6 envC3).out = [] ∧
    (node_handle_data stC3 6 envC3).st.peers = stC3.peers ∧
    (node_handle_data stC3 6 envC3).st.peer_info = stC3.peer_info := by
  refine ⟨by decide, by decide, by decide⟩

/-- Claim C3 (amended): handling a second `version` from an
already-registered peer leaves the peer table unchanged (`register_peer`
returns `false`) and the node sends nothing — in particular no `verack`;
the `verack` and `version` replies are sent only on first registration. -/
theorem version_reregister_noop (s : NodeState) (now : Int) (env : Envelope)
    (hty : env.type = "version") (hmem : env.identifier ∈ s.peers) :
    (node_handle_data s now env).out = [] ∧
    (node_handle_data s now env).st.peers = s.peers ∧
    (node_handle_data s now env).st.peer_info = s.peer_info ∧
    (∀ hgt, (register_peer s now env.identifier hgt).2 = false) := by
  have hreg : ∀ hgt, register_peer s now env.identifier hgt = (s, false) := by
    intro hgt
    unfold register_peer
    rw [if_pos hmem]
  have hhb : env.type ≠ "heartbeat" := by rw [hty]; decide
  have hcore : ∀ m : MsgBody, node_handle_core s now env m = { st := s, out := [], err := false } := by
    intro m
    unfold node_handle_core seqEff
    simp [hty, hreg m.height, hhb]
  have hdata : (node_handle_data s now env).out = [] ∧ (node_handle_data s now env).st = s := by
    unfold node_handle_data
    cases env.message <;> simp [hcore]
  exact ⟨hdata.1, by rw [hdata.2], by rw [hdata.2], fun hgt => by rw [hreg hgt]⟩

/-- Claim C3 witness: the amended statement at the concrete re-registration
fixture. -/
theorem version_reregister_noop_witness :
    (node_handle_data stC3 7 envC3).out = [] ∧
    (node_handle_data stC3 7 envC3).st.peers = stC3.peers ∧
    (node_handle_data stC3 7 envC3).st.peer_info = stC3.peer_info ∧
    (∀ hgt, (register_peer stC3 7 envC3.identifier hgt).2 = false) :=
  version_reregister_noop stC3 7 envC3 rfl (by decide)

/-! Lemmas for the idle sweep. -/

theorem lookupKey_removeEntry {α : Type} (k k' : String) (l : List (String × α)) :
    lookupKey k' (removeEntry k l) = if k' = k then none else lookupKey k' l := by
  induction l with
  | nil => simp [lookupKey, removeEntry]
  | cons kv rest ih =>
    obtain ⟨k0, v⟩ := kv
    by_cases h0 : k0 = k
    · subst h0
      by_cases h1 : k0 = k'
      · subst h1
        simp [lookupKey, removeEntry, ih]
      · simp [lookupKey, removeEntry, h1, ih]
    · by_cases h1 : k0 = k'
      · subst h1
        simp [lookupKey, removeEntry, h0, Ne.symm h0]
      · simp [lookupKey, removeEntry, h0, h1, ih]

theorem lookupKey_cons {α : Type} (k k0 : String) (v0 : α) (rest : List (String × α)) :
    lookupKey k ((k0, v0) :: rest) = if k0 = k then some v0 else lookupKey k rest := rfl

theorem removeId_cons (k p : String) (rest : List String) :
    removeId k (p :: rest) = if p = k then removeId k rest else p :: removeId k rest := rfl

theorem mem_removeId (k q : String) (l : List String) :
    q ∈ removeId k l ↔ q ∈ l ∧ q ≠ k := by
  induction l with
  | nil => simp [removeId]
  | cons p rest ih =>
    by_cases h0 : p = k
    · subst h0
      rw [removeId_cons, if_pos rfl, ih]
      constructor
      · rintro ⟨h1, h2⟩
        exact ⟨List.mem_cons_of_mem p h1, h2⟩
      · rintro ⟨h1, h2⟩
        rcases List.mem_cons.mp h1 with h | h
        · exact absurd h h2
        · exact ⟨h, h2⟩
    · rw [removeId_cons, if_neg h0]
      simp only [List.mem_cons, ih]
      constructor
      · rintro (h | ⟨h1, h2⟩)
        · subst h
          exact ⟨Or.inl rfl, h0⟩
        · exact ⟨Or.inr h1, h2⟩
      · rintro ⟨h | h, hk⟩
        · exact Or.inl h
        · exact Or.inr ⟨h, hk⟩

theorem lookupKey_eq_some_iff_mem {α : Type} {l : List (String × α)}
    (hnd : (l.map Prod.fst).Nodup) (k : String) (v : α) :
    lookupKey k l = some v ↔ (k, v) ∈ l := by
  induction l with
  | nil => simp [lookupKey]
  | cons kv rest ih =>
    obtain ⟨k0, v0⟩ := kv
    rw [List.map_cons, List.nodup_cons] at hnd
    by_cases h0 : k0 = k
    · subst h0
      rw [lookupKey_cons, if_pos rfl]
      constructor
      · intro h
        have hv : v0 = v := by injection h
        subst hv
        exact List.mem_cons_self _ _
      · intro h
        rcases List.mem_cons.mp h with h | h
        · rw [Prod.mk.injEq] at h
          rw [h.2]
        · exact absurd (List.mem_map_of_mem Prod.fst h) hnd.1
    · rw [lookupKey_cons, if_neg h0, ih hnd.2]
      constructor
      · exact fun h => List.mem_cons_of_mem _ h
      · intro h
        rcases List.mem_cons.mp h with h | h
        · exact absurd (congrArg Prod.fst h).symm h0
        · exact h

theorem removeAll_spec : ∀ (ds : List String) (s : NodeState),
    ds.Nodup →
    (∀ k ∈ ds, (lookupKey k s.peer_info).isSome ∧ k ∈ s.peers) →
    (removeAll s ds).2 = false ∧
    (∀ k, lookupKey k (removeAll s ds).1.peer_info =
        if k ∈ ds then none else lookupKey k s.peer_info) ∧
    (∀ k, k ∈ (removeAll s ds).1.peers ↔ (k ∈ s.peers ∧ k ∉ ds)) := by
  intro ds
  induction ds with
  | nil =>
    intro s _ _
    refine ⟨rfl, fun k => by simp [removeAll], fun k => by simp [removeAll]⟩
  | cons p ps ih =>
    intro s hnd hcond
    rw [List.nodup_cons] at hnd
    obtain ⟨hpl, hpm⟩ := hcond p (List.mem_cons_self p ps)
    have hstep : removeAll s (p :: ps) =
        removeAll { s with peer_info := removeEntry p s.peer_info,
                           peers := removeId p s.peers } ps := by
      simp [removeAll, hpl, hpm]
    have hcond' : ∀ k ∈ ps,
        (lookupKey k (removeEntry p s.peer_info)).isSome ∧ k ∈ removeId p s.peers := by
      intro k hk
      have hkp : k ≠ p := fun h => hnd.1 (h ▸ hk)
      obtain ⟨h1, h2⟩ := hcond k (List.mem_cons_of_mem p hk)
      rw [lookupKey_removeEntry, if_neg hkp]
      exact ⟨h1, (mem_removeId p k s.peers).mpr ⟨h2, hkp⟩⟩
    obtain ⟨he, hlook, hpeers⟩ :=
      ih { s with peer_info := removeEntry p s.peer_info, peers := removeId p s.peers }
        hnd.2 hcond'
    refine ⟨by rw [hstep]; exact he, ?_, ?_⟩
    · intro k
      rw [hstep, hlook k]
      by_cases hk : k ∈ ps
      · rw [if_pos hk, if_pos (List.mem_cons_of_mem p hk)]
      · rw [if_neg hk]
        by_cases hkp : k = p
        · subst hkp
          rw [if_pos (List.mem_cons_self k ps), lookupKey_removeEntry, if_pos rfl]
        · rw [lookupKey_removeEntry, if_neg hkp,
            if_neg (by simp [List.mem_cons, hkp, hk])]
    · intro k
      rw [hstep, hpeers k, mem_removeId]
      constructor
      · rintro ⟨⟨h1, h2⟩, h3⟩
        exact ⟨h1, by simp [List.mem_cons, h2, h3]⟩
      · rintro ⟨h1, h2⟩
        simp only [List.mem_cons, not_or] at h2
        exact ⟨⟨h1, h2.1⟩, h2.2⟩

/-- Claim C4: the idle sweep of `Node.run` removes exactly the peers whose
`lastsend - lastrecv` strictly exceeds 1800 seconds (a difference of exactly
1800 is kept), and a peer to which nothing has been sent (`lastsend = 0`,
non-negative `lastrecv` stamped at registration) is never removed. -/
theorem idle_sweep_spec (s : NodeState)
    (hnd : (s.peer_info.map Prod.fst).Nodup)
    (hsub : ∀ kv ∈ s.peer_info, kv.1 ∈ s.peers) :
    (idle_sweep s).2 = false ∧
    (∀ k pi, lookupKey k (idle_sweep s).1.peer_info = some pi ↔
      (lookupKey k s.peer_info = some pi ∧ pi.lastsend - pi.lastrecv ≤ 60 * 30)) ∧
    (∀ k pi, lookupKey k s.peer_info = some pi → 60 * 30 < pi.lastsend - pi.lastrecv →
      lookupKey k (idle_sweep s).1.peer_info = none) ∧
    (∀ k pi, lookupKey k s.peer_info = some pi → pi.lastsend = 0 → 0 ≤ pi.lastrecv →
      lookupKey k (idle_sweep s).1.peer_info = some pi) := by
  set ds := (s.peer_info.filter
      (fun kv => decide (60 * 30 < kv.2.lastsend - kv.2.lastrecv))).map Prod.fst with hds
  have hmemds : ∀ k, k ∈ ds ↔
      ∃ pi, lookupKey k s.peer_info = some pi ∧ 60 * 30 < pi.lastsend - pi.lastrecv := by
    intro k
    rw [hds]
    constructor
    · intro hk
      rcases List.mem_map.mp hk with ⟨kv, hkv, hfst⟩
      rcases List.mem_filter.mp hkv with ⟨hmem, hpred⟩
      subst hfst
      exact ⟨kv.2, (lookupKey_eq_some_iff_mem hnd kv.1 kv.2).mpr hmem,
        of_decide_eq_true hpred⟩
    · rintro ⟨pi, hlk, hlt⟩
      have hmem : (k, pi) ∈ s.peer_info := (lookupKey_eq_some_iff_mem hnd k pi).mp hlk
      exact List.mem_map.mpr ⟨(k, pi), List.mem_filter.mpr ⟨hmem, decide_eq_true hlt⟩, rfl⟩
  have hdnd : ds.Nodup := hnd.sublist ((List.filter_sublist s.peer_info).map Prod.fst)
  have hcond : ∀ k ∈ ds, (lookupKey k s.peer_info).isSome ∧ k ∈ s.peers := by
    intro k hk
    rcases (hmemds k).mp hk with ⟨pi, hlk, -⟩
    exact ⟨by rw [hlk]; rfl,
      hsub (k, pi) ((lookupKey_eq_some_iff_mem hnd k pi).mp hlk)⟩
  obtain ⟨he, hlook, -⟩ := removeAll_spec ds s hdnd hcond
  have hsweep : idle_sweep s = removeAll s ds := by
    rw [hds]
    exact rfl
  refine ⟨by rw [hsweep]; exact he, ?_, ?_, ?_⟩
  · intro k pi
    rw [hsweep, hlook k]
    by_cases hk : k ∈ ds
    · rw [if_pos hk]
      constructor
      · intro h
        exact Option.noConfusion h
      · rintro ⟨hlk, hle⟩
        rcases (hmemds k).mp hk with ⟨pi', hlk', hlt⟩
        rw [hlk] at hlk'
        injection hlk' with h'
        subst h'
        exact absurd hlt (not_lt.mpr hle)
    · rw [if_neg hk]
      constructor
      · intro h
        refine ⟨h, ?_⟩
        by_contra hgt
        exact hk ((hmemds k).mpr ⟨pi, h, not_le.mp hgt⟩)
      · exact fun h => h.1
  · intro k pi hlk hlt
    rw [hsweep, hlook k, if_pos ((hmemds k).mpr ⟨pi, hlk, hlt⟩)]
  · intro k pi hlk h0 hrecv
    have hle : pi.lastsend - pi.lastrecv ≤ 60 * 30 := by
      rw [h0]
      omega
    have hk : k ∉ ds := by
      intro hk
      rcases (hmemds k).mp hk with ⟨pi', hlk', hlt⟩
      rw [hlk] at hlk'
      injection hlk' with h'
      subst h'
      exact absurd hlt (not_lt.mpr hle)
    rw [hsweep, hlook k, if_neg hk]
    exact hlk

/-- Claim C4 witness: a peer idle for exactly 1800 s survives the sweep, one
idle for 1801 s is removed, and a never-sent-to peer survives. -/
theorem idle_sweep_witness :
    (idle_sweep stC4).2 = false ∧
    lookupKey "1:a" (idle_sweep stC4).1.peer_info =
      some { identifier := "1:a", lastrecv := 0, lastsend := 1800, height := some 0 } ∧
    lookupKey "2:b" (idle_sweep stC4).1.peer_info = none ∧
    lookupKey "3:c" (idle_sweep stC4).1.peer_info =
      some { identifier := "3:c", lastrecv := 5, lastsend := 0, height := some 0 } := by
  obtain ⟨he, hiff, hrem, hkeep⟩ := idle_sweep_spec stC4 (by decide) (by decide)
  refine ⟨he, ?_, ?_, ?_⟩
  · exact (hiff "1:a"
      { identifier := "1:a", lastrecv := 0, lastsend := 1800, height := some 0 }).mpr
      ⟨by decide, by decide⟩
  · exact hrem "2:b"
      { identifier := "2:b", lastrecv := 0, lastsend := 1801, height := some 0 }
      (by decide) (by decide)
  · exact hkeep "3:c"
      { identifier := "3:c", lastrecv := 5, lastsend := 0, height := some 0 }
      (by decide) (by decide) (by decide)

/-! Lemmas about `valid_chain` and the full-node handlers. -/

theorem valid_block_self_false (h : String → String) (b : Block) :
    valid_block h b b = false := by
  unfold valid_block
  have hne : (b.header.index == b.header.index + 1) = false := by
    apply Bool.eq_false_iff.mpr
    intro hh
    have := eq_of_beq hh
    omega
  rw [hne]
  rfl

theorem validFrom_append_pair (h : String → String) (b : Block) :
    ∀ (l : List Block) (prev : Block),
      validFrom h prev (l ++ b :: b :: []) = true → valid_block h b b = true := by
  intro l
  induction l with
  | nil =>
    intro prev hv
    rw [List.nil_append] at hv
    unfold validFrom at hv
    rw [Bool.and_eq_true] at hv
    unfold validFrom at hv
    rw [Bool.and_eq_true] at hv
    exact hv.2.1
  | cons a l ih =>
    intro prev hv
    rw [List.cons_append] at hv
    unfold validFrom at hv
    rw [Bool.and_eq_true] at hv
    exact ih a hv.2

theorem valid_chain_pair_false (h : String → String) (c : List Block) (b : Block) :
    ¬ valid_chain h (c ++ b :: b :: []) = true := by
  intro hvc
  cases c with
  | nil =>
    rw [List.nil_append] at hvc
    unfold valid_chain validFrom at hvc
    simp only [Bool.and_true, Bool.and_eq_true] at hvc
    have := hvc.2.1
    rw [valid_block_self_false] at this
    exact Bool.false_ne_true this
  | cons g rest =>
    rw [List.cons_append] at hvc
    unfold valid_chain at hvc
    rw [Bool.and_eq_true] at hvc
    have := validFrom_append_pair h b rest g hvc.2
    rw [valid_block_self_false] at this
    exact Bool.false_ne_true this

/-- Claim C2 (counterexample): at a concrete state holding a two-block
chain, a `chain` message carrying the one-block genesis chain is accepted
(it passes `valid_chain`) and wholesale replaces the longer chain, so the
replacement shrinks the chain — `len(chain_new) ≥ len(chain_old)` fails.
The handler never compares lengths. -/
theorem chain_shrink_counterexample :
    (bc_handle_data hCx stC2 0 envC2).st.chain = [genesis_block] ∧
    (bc_handle_data hCx stC2 0 envC2).st.chain.length < stC2.chain.length := by
  exact ⟨by decide, by decide⟩

/-- Claim C2 (amended): whenever the `chain` handler replaces the node's
chain, the new chain satisfies `valid_chain` and `synced` is set; in every
other outcome the chain is left unchanged.  The claimed length bound
`len(chain_new) ≥ len(chain_old)` does not hold: any valid chain, even a
shorter one, is accepted. -/
theorem chain_replacement_valid (h : String → String) (s : NodeState) (now : Int)
    (env : Envelope) (hty : env.type = "chain") :
    (bc_handle_data h s now env).st.chain = s.chain ∨
    (valid_chain h (bc_handle_data h s now env).st.chain = true ∧
      (bc_handle_data h s now env).st.synced = true) := by
  have hv1 : env.type ≠ "version" := by rw [hty]; decide
  have hv2 : env.type ≠ "verack" := by rw [hty]; decide
  have hv3 : env.type ≠ "heartbeat" := by rw [hty]; decide
  have hg1 : env.type ≠ "getdata" := by rw [hty]; decide
  have hg2 : env.type ≠ "getheaders" := by rw [hty]; decide
  unfold bc_handle_data
  cases hmsg : env.message with
  | malformed =>
    left
    have hnd : node_handle_data s now env = { st := s, out := [], err := true } := by
      unfold node_handle_data
      rw [hmsg]
    rw [hnd]
    rfl
  | empty =>
    left
    rw [node_handle_data_other s now env hv1 hv2 hv3 (by rw [hmsg]; decide)]
    simp [seqEff, bc_handle_core, hty, hg1, hg2, MsgBody.chain]
  | parsed m =>
    rw [node_handle_data_other s now env hv1 hv2 hv3
      (by rw [hmsg]; exact fun hh => PayloadIn.noConfusion hh)]
    rcases hc : m.chain with _ | c
    · left
      simp [seqEff, bc_handle_core, hty, hg1, hg2, hc]
    · rcases ht : m.tx_info with _ | t
      · left
        simp [seqEff, bc_handle_core, hty, hg1, hg2, hc, ht]
      · rcases hupd : upd_sender_info
            (fun pi => { pi with height := some (c.length : Int) }) env.identifier s with _ | s1
        · left
          simp [seqEff, bc_handle_core, hty, hg1, hg2, hc, ht, hupd]
        · have hs1 : s1.chain = s.chain := upd_sender_info_chain _ _ _ _ hupd
          by_cases hvc : valid_chain h c = true
          · right
            simp [seqEff, bc_handle_core, hty, hg1, hg2, hc, ht, hupd, hvc]
          · left
            simp [seqEff, bc_handle_core, hty, hg1, hg2, hc, ht, hupd, hvc,
              resolve_conflicts_chain, hs1]

/-- Claim C2 witness: the amended statement at the concrete shrink fixture
(the replacement branch: the accepted chain is valid and `synced` set). -/
theorem chain_replacement_valid_witness :
    (bc_handle_data hCx stC2 0 envC2).st.chain = stC2.chain ∨
    (valid_chain hCx (bc_handle_data hCx stC2 0 envC2).st.chain = true ∧
      (bc_handle_data hCx stC2 0 envC2).st.synced = true) :=
  chain_replacement_valid hCx stC2 0 envC2 rfl

/-- The effect of one `addblock` handling on the chain, the peer set, and
the sender's `peer_info` entry, given that the sender's peer-height update
does not raise (the sender is either unknown or present in `peer_info`,
the invariant `register_peer`/the sweep maintain): the received block is
appended when the extended chain validates, otherwise the chain is
unchanged; the peer set is unchanged and the sender's entry survives. -/
theorem bc_addblock_chain (h : String → String) (s : NodeState) (now : Int)
    (env : Envelope) (m : MsgBody) (b : Block) (hgt : Int) (ti : List (String × String))
    (hty : env.type = "addblock") (hmsg : env.message = PayloadIn.parsed m)
    (hb : m.block = some b) (hh : m.height = some hgt) (htx : m.tx_info = some ti)
    (hsync : env.identifier ∈ s.peers → (lookupKey env.identifier s.peer_info).isSome) :
    (bc_handle_data h s now env).st.chain =
      (if valid_chain h (s.chain ++ [b]) = true then s.chain ++ [b] else s.chain) ∧
    (bc_handle_data h s now env).st.peers = s.peers ∧
    (env.identifier ∈ s.peers →
      (lookupKey env.identifier (bc_handle_data h s now env).st.peer_info).isSome) := by
  have hv1 : env.type ≠ "version" := by rw [hty]; decide
  have hv2 : env.type ≠ "verack" := by rw [hty]; decide
  have hv3 : env.type ≠ "heartbeat" := by rw [hty]; decide
  have hg1 : env.type ≠ "getdata" := by rw [hty]; decide
  have hg2 : env.type ≠ "getheaders" := by rw [hty]; decide
  have hg3 : env.type ≠ "chain" := by rw [hty]; decide
  obtain ⟨s1, hupd⟩ :=
    upd_sender_info_of_sync (fun pi => { pi with height := some hgt }) env.identifier s hsync
  have hchain1 : s1.chain = s.chain := upd_sender_info_chain _ _ _ _ hupd
  have hpeers1 : s1.peers = s.peers := upd_sender_info_peers _ _ _ _ hupd
  have hiso : (lookupKey env.identifier s.peer_info).isSome →
      (lookupKey env.identifier s1.peer_info).isSome :=
    upd_sender_info_lookup_isSome _ _ _ _ _ hupd
  by_cases hvc : valid_chain h (s.chain ++ [b]) = true
  · have hvc1 : valid_chain h (s1.chain ++ [b]) = true := by
      rw [hchain1]
      exact hvc
    have hcore : bc_handle_data h s now env =
        { st := { s1 with chain := s1.chain ++ [b], tx_info := dict_merge s1.tx_info ti },
          out := [], err := false } := by
      unfold bc_handle_data
      rw [node_handle_data_other s now env hv1 hv2 hv3
        (by rw [hmsg]; exact fun hh' => PayloadIn.noConfusion hh')]
      rw [hmsg]
      simp [seqEff, bc_handle_core, hty, hg1, hg2, hg3, hb, hh, htx, hupd, hvc1]
    refine ⟨?_, ?_, ?_⟩
    · rw [hcore, if_pos hvc]
      show s1.chain ++ [b] = s.chain ++ [b]
      rw [hchain1]
    · rw [hcore]
      exact hpeers1
    · intro hp
      rw [hcore]
      exact hiso (hsync hp)
  · have hvc1 : ¬ valid_chain h (s1.chain ++ [b]) = true := by
      rw [hchain1]
      exact hvc
    have hcore : bc_handle_data h s now env = resolve_conflicts s1 now := by
      unfold bc_handle_data
      rw [node_handle_data_other s now env hv1 hv2 hv3
        (by rw [hmsg]; exact fun hh' => PayloadIn.noConfusion hh')]
      rw [hmsg]
      simp [seqEff, bc_handle_core, hty, hg1, hg2, hg3, hb, hh, htx, hupd, hvc1]
    refine ⟨?_, ?_, ?_⟩
    · rw [hcore, if_neg hvc, resolve_conflicts_chain]
      exact hchain1
    · rw [hcore, resolve_conflicts_peers]
      exact hpeers1
    · intro hp
      rw [hcore]
      exact resolve_conflicts_lookup_isSome s1 now env.identifier (hiso (hsync hp))

/-- Claim C5: handling the same valid `addblock` twice is idempotent on the
chain — the first application appends the block, the second leaves the
chain unchanged, because the twice-extended chain has the block adjacent to
itself and fails `valid_chain` (its `index`/`previous_hash` cannot match
itself), so the tentative chain is discarded.  The sender's peer-height
update is assumed not to raise: the sender is either unknown or present in
`peer_info`, the invariant that `register_peer` and the sweep maintain. -/
theorem addblock_idempotent (h : String → String) (s : NodeState) (now now2 : Int)
    (env : Envelope) (m : MsgBody) (b : Block) (hgt : Int) (ti : List (String × String))
    (hty : env.type = "addblock") (hmsg : env.message = PayloadIn.parsed m)
    (hb : m.block = some b) (hh : m.height = some hgt) (htx : m.tx_info = some ti)
    (hsync : env.identifier ∈ s.peers → (lookupKey env.identifier s.peer_info).isSome)
    (hv : valid_chain h (s.chain ++ [b]) = true) :
    (bc_handle_data h s now env).st.chain = s.chain ++ [b] ∧
    (bc_handle_data h (bc_handle_data h s now env).st now2 env).st.chain = s.chain ++ [b] := by
  obtain ⟨h1chain, h1peers, h1look⟩ :=
    bc_addblock_chain h s now env m b hgt ti hty hmsg hb hh htx hsync
  rw [if_pos hv] at h1chain
  have hsync2 : env.identifier ∈ (bc_handle_data h s now env).st.peers →
      (lookupKey env.identifier (bc_handle_data h s now env).st.peer_info).isSome := by
    rw [h1peers]
    exact h1look
  have hnotvalid : ¬ valid_chain h ((bc_handle_data h s now env).st.chain ++ [b]) = true := by
    rw [h1chain, List.append_assoc, List.singleton_append]
    exact valid_chain_pair_false h s.chain b
  obtain ⟨h2chain, -, -⟩ :=
    bc_addblock_chain h (bc_handle_data h s now env).st now2 env m b hgt ti
      hty hmsg hb hh htx hsync2
  rw [if_neg hnotvalid] at h2chain
  exact ⟨h1chain, by rw [h2chain, h1chain]⟩

/-- Claim C5 witness: on an empty chain, the first handling of an
`addblock` carrying the genesis block appends it, and handling the same
message again leaves the chain at exactly that one block. -/
theorem addblock_idempotent_witness :
    (bc_handle_data hCx stC5 0 envC5).st.chain = stC5.chain ++ [genesis_block] ∧
    (bc_handle_data hCx (bc_handle_data hCx stC5 0 envC5).st 1 envC5).st.chain =
      stC5.chain ++ [genesis_block] :=
  addblock_idempotent hCx stC5 0 1 envC5
    { block := some genesis_block, height := some 1, tx_info := some [] }
    genesis_block 1 [] rfl rfl rfl rfl rfl (by decide) (by decide)

/-- Claim C8: whenever some proof satisfies `valid_proof` for the given
`previous_hash`, the proof-of-work search (iterating upward from 0, here
denoted by the least-witness operator) terminates with a proof that
satisfies `valid_proof` and is the least such non-negative integer. -/
theorem proof_of_work_spec (h : String → String) (prev_hash : String)
    (hex : ∃ p, valid_proof h prev_hash p = true) :
    valid_proof h prev_hash (proof_of_work h prev_hash hex) = true ∧
    ∀ m, m < proof_of_work h prev_hash hex → valid_proof h prev_hash m = false := by
  constructor
  · exact Nat.find_spec hex
  · intro m hm
    exact Bool.eq_false_iff.mpr (Nat.find_min hex hm)

theorem pow_exists_h00 : ∃ p, valid_proof h00 "prev" p = true := ⟨0, by decide⟩

/-- Claim C8 witness: under a digest for which proof 0 already wins, the
search returns a valid and minimal proof. -/
theorem proof_of_work_spec_witness :
    valid_proof h00 "prev" (proof_of_work h00 "prev" pow_exists_h00) = true ∧
    ∀ m, m < proof_of_work h00 "prev" pow_exists_h00 →
      valid_proof h00 "prev" m = false :=
  proof_of_work_spec h00 "prev" pow_exists_h00

/-! Lemmas for the conflict-resolution scan. -/

theorem scan_peers_cons (info : List (String × PeerInfo)) (p : String) (ps : List String)
    (mh : Int) (mp : Option String) :
    scan_peers info (p :: ps) mh mp =
      match lookupKey p info with
      | none => scan_peers info ps mh mp
      | some pi =>
        match pi.height with
        | none => ((mh, mp), true)
        | some hgt =>
          if mh < hgt then scan_peers info ps hgt (some p)
          else scan_peers info ps mh mp := rfl

theorem send_err_of_lookup (s : NodeState) (now : Int) (ty : String) (msg : OutPayload)
    (tgt : String) (pi : PeerInfo) (htgt : tgt ≠ "")
    (hl : lookupKey tgt s.peer_info = some pi) :
    (send s now ty msg tgt).err = false := by
  unfold send
  simp [htgt, hl]

theorem scan_peers_ok (info : List (String × PeerInfo)) :
    ∀ (ps : List String) (mh : Int) (mp : Option String),
      (∀ p ∈ ps, ∀ pi, lookupKey p info = some pi → pi.height.isSome) →
      ∃ mh' mp', scan_peers info ps mh mp = ((mh', mp'), false) ∧
        mh ≤ mh' ∧
        (∀ p ∈ ps, ∀ pi hgt, lookupKey p info = some pi → pi.height = some hgt → hgt ≤ mh') ∧
        ((mh' = mh ∧ mp' = mp) ∨
          (∃ p pi, p ∈ ps ∧ mp' = some p ∧ lookupKey p info = some pi ∧
            pi.height = some mh' ∧ mh < mh')) := by
  intro ps
  induction ps with
  | nil =>
    intro mh mp _
    exact ⟨mh, mp, rfl, le_refl mh, by simp, Or.inl ⟨rfl, rfl⟩⟩
  | cons p ps ih =>
    intro mh mp hall
    rcases hlp : lookupKey p info with _ | pi
    · obtain ⟨mh', mp', hscan, hle, hbound, hdisj⟩ :=
        ih mh mp (fun q hq => hall q (List.mem_cons_of_mem p hq))
      refine ⟨mh', mp', ?_, hle, ?_, ?_⟩
      · rw [scan_peers_cons, hlp]
        exact hscan
      · intro q hq pi' hgt' hlq hhq
        rcases List.mem_cons.mp hq with hqp | hqs
        · subst hqp
          rw [hlp] at hlq
          exact Option.noConfusion hlq
        · exact hbound q hqs pi' hgt' hlq hhq
      · rcases hdisj with hl | ⟨q, pi', hq, hmp, hlq, hhq, hlt⟩
        · exact Or.inl hl
        · exact Or.inr ⟨q, pi', List.mem_cons_of_mem p hq, hmp, hlq, hhq, hlt⟩
    · rcases hh : pi.height with _ | hgt
      · have := hall p (List.mem_cons_self p ps) pi hlp
        rw [hh] at this
        exact absurd this (by simp)
      · by_cases hlt : mh < hgt
        · obtain ⟨mh', mp', hscan, hle, hbound, hdisj⟩ :=
            ih hgt (some p) (fun q hq => hall q (List.mem_cons_of_mem p hq))
          refine ⟨mh', mp', ?_, le_trans (le_of_lt hlt) hle, ?_, ?_⟩
          · rw [scan_peers_cons, hlp]
            simp only [hh]
            rw [if_pos hlt]
            exact hscan
          · intro q hq pi' hgt' hlq hhq
            rcases List.mem_cons.mp hq with hqp | hqs
            · subst hqp
              rw [hlp] at hlq
              injection hlq with hpi
              subst hpi
              rw [hh] at hhq
              injection hhq with hg
              subst hg
              exact hle
            · exact hbound q hqs pi' hgt' hlq hhq
          · rcases hdisj with ⟨hmh, hmp⟩ | ⟨q, pi', hq, hmp, hlq, hhq, hlt'⟩
            · subst hmh
              exact Or.inr ⟨p, pi, List.mem_cons_self p ps, hmp, hlp, hh, hlt⟩
            · exact Or.inr
                ⟨q, pi', List.mem_cons_of_mem p hq, hmp, hlq, hhq, lt_trans hlt hlt'⟩
        · obtain ⟨mh', mp', hscan, hle, hbound, hdisj⟩ :=
            ih mh mp (fun q hq => hall q (List.mem_cons_of_mem p hq))
          refine ⟨mh', mp', ?_, hle, ?_, ?_⟩
          · rw [scan_peers_cons, hlp]
            simp only [hh]
            rw [if_neg hlt]
            exact hscan
          · intro q hq pi' hgt' hlq hhq
            rcases List.mem_cons.mp hq with hqp | hqs
            · subst hqp
              rw [hlp] at hlq
              injection hlq with hpi
              subst hpi
              rw [hh] at hhq
              injection hhq with hg
              subst hg
              exact le_trans (not_lt.mp hlt) hle
            · exact hbound q hqs pi' hgt' hlq hhq
          · rcases hdisj with hl | ⟨q, pi', hq, hmp, hlq, hhq, hlt'⟩
            · exact Or.inl hl
            · exact Or.inr ⟨q, pi', List.mem_cons_of_mem p hq, hmp, hlq, hhq, hlt'⟩

/-- Claim C1: when every known peer has a recorded claimed height (and peer
identifiers are non-empty strings, as the `addr:name` format guarantees),
conflict resolution raises nothing and: if some peer claims a height
strictly above the local chain length, it sends exactly one `getdata`
targeted at a peer of maximal claimed height (strictly above the chain
length) and leaves `synced` (and the chain) unchanged; if no peer claims a
height above the chain length, it sends nothing and sets `synced = true`. -/
theorem resolve_conflicts_spec (s : NodeState) (now : Int)
    (hinfo : ∀ p ∈ s.peers, (heightOf s p).isSome)
    (hne : ∀ p ∈ s.peers, p ≠ "") :
    (resolve_conflicts s now).err = false ∧
    ((∃ p, p ∈ s.peers ∧ ∃ hgt, heightOf s p = some hgt ∧ (s.chain.length : Int) < hgt) →
      ∃ p hgt, p ∈ s.peers ∧ heightOf s p = some hgt ∧ (s.chain.length : Int) < hgt ∧
        (∀ q ∈ s.peers, ∀ hq, heightOf s q = some hq → hq ≤ hgt) ∧
        (resolve_conflicts s now).out = [mkFrame s "getdata" OutPayload.empty p] ∧
        (resolve_conflicts s now).st.synced = s.synced ∧
        (resolve_conflicts s now).st.chain = s.chain) ∧
    ((∀ p ∈ s.peers, ∀ hgt, heightOf s p = some hgt → hgt ≤ (s.chain.length : Int)) →
      (resolve_conflicts s now).out = [] ∧ (resolve_conflicts s now).st.synced = true) := by
  have hOf : ∀ q pi, lookupKey q s.peer_info = some pi → heightOf s q = pi.height := by
    intro q pi hl
    unfold heightOf
    rw [hl]
    rfl
  have hOfSome : ∀ q hq, heightOf s q = some hq →
      ∃ pi, lookupKey q s.peer_info = some pi ∧ pi.height = some hq := by
    intro q hq hh
    unfold heightOf at hh
    rcases hl : lookupKey q s.peer_info with _ | pi
    · rw [hl] at hh
      exact Option.noConfusion hh
    · rw [hl] at hh
      exact ⟨pi, rfl, hh⟩
  have hall : ∀ p ∈ s.peers, ∀ pi, lookupKey p s.peer_info = some pi → pi.height.isSome := by
    intro p hp pi hl
    have := hinfo p hp
    rw [hOf p pi hl] at this
    exact this
  obtain ⟨mh', mp', hscan, hle, hbound, hdisj⟩ :=
    scan_peers_ok s.peer_info s.peers (s.chain.length : Int) none hall
  have hres_none : mp' = none →
      resolve_conflicts s now = { st := { s with synced := true }, out := [], err := false } := by
    intro hmp
    unfold resolve_conflicts
    rw [hscan, hmp]
  have hres_some : ∀ p, mp' = some p → p ≠ "" →
      resolve_conflicts s now = send s now "getdata" OutPayload.empty p := by
    intro p hmp hpne
    unfold resolve_conflicts
    rw [hscan, hmp]
    simp only [ne_eq]
    rw [if_pos hpne]
  refine ⟨?_, ?_, ?_⟩
  · rcases hdisj with ⟨-, hmp⟩ | ⟨p, pi, hp, hmp, hlp, -, -⟩
    · rw [hres_none hmp]
    · rw [hres_some p hmp (hne p hp)]
      exact send_err_of_lookup s now "getdata" OutPayload.empty p pi (hne p hp) hlp
  · rintro ⟨p0, hp0, hgt0, hh0, hlt0⟩
    rcases hdisj with ⟨hmh, -⟩ | ⟨p, pi, hp, hmp, hlp, hhp, hltp⟩
    · obtain ⟨pi0, hlp0, hhp0⟩ := hOfSome p0 hgt0 hh0
      have := hbound p0 hp0 pi0 hgt0 hlp0 hhp0
      rw [hmh] at this
      exact absurd hlt0 (not_lt.mpr this)
    · have hres := hres_some p hmp (hne p hp)
      refine ⟨p, mh', hp, ?_, hltp, ?_, ?_, ?_, ?_⟩
      · rw [hOf p pi hlp]
        exact hhp
      · intro q hq hgtq hhq
        obtain ⟨piq, hlq, hhq'⟩ := hOfSome q hgtq hhq
        exact hbound q hq piq hgtq hlq hhq'
      · rw [hres]
        exact send_out s now "getdata" OutPayload.empty p
      · rw [hres]
        exact send_st_synced s now "getdata" OutPayload.empty p
      · rw [hres]
        exact send_st_chain s now "getdata" OutPayload.empty p
  · intro hall_le
    rcases hdisj with ⟨-, hmp⟩ | ⟨p, pi, hp, hmp, hlp, hhp, hltp⟩
    · rw [hres_none hmp]
      exact ⟨rfl, rfl⟩
    · have hOfp : heightOf s p = some mh' := by
        rw [hOf p pi hlp]
        exact hhp
      exact absurd hltp (not_lt.mpr (hall_le p hp mh' hOfp))

/-- Claim C1 witness: one registered peer claiming height 5 over an empty
chain: conflict resolution sends exactly one `getdata` to it and leaves
`synced` unchanged. -/
theorem resolve_conflicts_spec_witness :
    ∃ p hgt, p ∈ stC1.peers ∧ heightOf stC1 p = some hgt ∧
      (stC1.chain.length : Int) < hgt ∧
      (∀ q ∈ stC1.peers, ∀ hq, heightOf stC1 q = some hq → hq ≤ hgt) ∧
      (resolve_conflicts stC1 3).out = [mkFrame stC1 "getdata" OutPayload.empty p] ∧
      (resolve_conflicts stC1 3).st.synced = stC1.synced ∧
      (resolve_conflicts stC1 3).st.chain = stC1.chain :=
  (resolve_conflicts_spec stC1 3 (by decide) (by decide)).2.1
    ⟨"1:a", by decide, 5, by decide, by decide⟩
